import Mathlib

/-!
Verification of the Content Fetch & Normalization core of the blog repository
(`src/lib/notion/index.ts`).  The TypeScript functions are shallowly embedded
as Lean definitions.  JavaScript dynamic values are modelled with `Option`
(`none` = `undefined`/absent key); a JS run-time `TypeError` (property access
on `undefined`) is modelled by an `Option`-returning function producing `none`.
Object keys whose value is `undefined` are identified with absent keys, which
matches the observable (JSON/deep-equality) behaviour of the data.
-/

namespace Blog

/-! ## JavaScript truthiness helpers -/

/-- JS `o || d` for string-valued `o` (`none` = `undefined`; `""` is falsy). -/
def jsStrOr (o : Option String) (d : String) : String :=
  match o with
  | none => d
  | some s => if s = "" then d else s

/-- JS truthiness of a string-valued expression (`undefined` and `""` are falsy). -/
def truthyStr (o : Option String) : Bool :=
  match o with
  | none => false
  | some s => !(s = "")

/-- JS `o || false` for boolean-valued `o` (`none` = `undefined`). -/
def truthyBool (o : Option Bool) : Bool := o.getD false

theorem jsStrOr_ne_empty (o : Option String) (d : String) (hd : d ≠ "") :
    jsStrOr o d ≠ "" := by
  cases o with
  | none => simpa [jsStrOr] using hd
  | some s =>
    by_cases hs : s = "" <;> simp [jsStrOr, hs, hd]

theorem jsStrOr_of_ne_empty (s : String) (d : String) (hs : s ≠ "") :
    jsStrOr (some s) d = s := by
  simp [jsStrOr, hs]

theorem jsStrOr_some_empty (s : String) : jsStrOr (some s) "" = s := by
  by_cases hs : s = "" <;> simp [jsStrOr, hs]

/-! ## Rich text spans (`minimizeRichText`, lines 284–334) -/

/-- A rich-text link object (`{ url }`). -/
@[ext]
structure NLink where
  url : Option String
deriving DecidableEq, Repr

/-- The `text` sub-object of a rich-text span (`{ content, link }`). -/
@[ext]
structure NTextObj where
  content : Option String
  link : Option NLink
deriving DecidableEq, Repr

/-- The style annotation set of a rich-text span. -/
@[ext]
structure NAnnotations where
  bold : Option Bool
  italic : Option Bool
  strikethrough : Option Bool
  underline : Option Bool
  code : Option Bool
  color : Option String
deriving DecidableEq, Repr

/-- A rich-text span as read by `minimizeRichText`. -/
@[ext]
structure NSpan where
  plain_text : Option String
  type : Option String
  annotations : Option NAnnotations
  text : Option NTextObj
  href : Option String
deriving DecidableEq, Repr

/-- The `hasFormatting` test of `minimizeRichText`: at least one style flag is
truthy, or the color is truthy and differs from `"default"`. -/
def hasFormatting (a : NAnnotations) : Bool :=
  truthyBool a.bold || truthyBool a.italic || truthyBool a.strikethrough ||
    truthyBool a.underline || truthyBool a.code ||
    (truthyStr a.color && !(a.color = some "default"))

/-- The per-span body of `minimizeRichText` (TS lines 287–332). -/
def minimizeSpan (s : NSpan) : NSpan :=
  { plain_text := s.plain_text
    type := some (jsStrOr s.type "text")
    annotations :=
      match s.annotations with
      | none => none
      | some a =>
        if hasFormatting a then
          some ⟨some (truthyBool a.bold), some (truthyBool a.italic),
            some (truthyBool a.strikethrough), some (truthyBool a.underline),
            some (truthyBool a.code), some (jsStrOr a.color "default")⟩
        else none
    text :=
      match s.text with
      | none => none
      | some t =>
        if truthyStr t.content || t.link.isSome then
          some ⟨some (jsStrOr t.content ""), t.link.map (fun l => ⟨l.url⟩)⟩
        else none
    href := if truthyStr s.href then s.href else none }

/-- `minimizeRichText` maps the span minimizer over the list (the TS guard for
a non-array argument is handled by the element type here and by explicit
`Option` matching at every call site). -/
def minimizeRichText (l : List NSpan) : List NSpan := l.map minimizeSpan

theorem colorPart_rebuild (c : Option String) :
    (truthyStr (some (jsStrOr c "default")) && !(some (jsStrOr c "default") = some "default")) =
    (truthyStr c && !(c = some "default")) := by
  rcases c with _ | s
  · simp [jsStrOr, truthyStr]
  · by_cases h1 : s = ""
    · simp [jsStrOr, truthyStr, h1]
    · by_cases h2 : s = "default" <;> simp [jsStrOr, truthyStr, h1, h2]

/-- Re-running `hasFormatting` on a rebuilt annotation object gives the same answer. -/
theorem hasFormatting_rebuild (a : NAnnotations) :
    hasFormatting
      ⟨some (truthyBool a.bold), some (truthyBool a.italic),
        some (truthyBool a.strikethrough), some (truthyBool a.underline),
        some (truthyBool a.code), some (jsStrOr a.color "default")⟩ =
    hasFormatting a := by
  unfold hasFormatting
  simp only [truthyBool, Option.getD_some]
  rw [colorPart_rebuild]

theorem minimizeSpan_idem (s : NSpan) : minimizeSpan (minimizeSpan s) = minimizeSpan s := by
  refine NSpan.ext ?_ ?_ ?_ ?_ ?_
  · rfl
  · -- type: the first pass produces a nonempty string, which `jsStrOr` keeps
    show some (jsStrOr (some (jsStrOr s.type "text")) "text") = some (jsStrOr s.type "text")
    rw [jsStrOr_of_ne_empty _ _ (jsStrOr_ne_empty s.type "text" (by decide))]
  · -- annotations
    show (minimizeSpan (minimizeSpan s)).annotations = (minimizeSpan s).annotations
    simp only [minimizeSpan]
    cases s.annotations with
    | none => rfl
    | some a =>
      by_cases hf : hasFormatting a
      · simp only [hf, if_true, hasFormatting_rebuild, Option.some.injEq]
        refine NAnnotations.ext rfl rfl rfl rfl rfl ?_
        simp [truthyBool,
          jsStrOr_of_ne_empty _ _ (jsStrOr_ne_empty a.color "default" (by decide))]
      · simp [hf]
  · -- text sub-object
    show (minimizeSpan (minimizeSpan s)).text = (minimizeSpan s).text
    simp only [minimizeSpan]
    cases s.text with
    | none => rfl
    | some t =>
      by_cases hc : (truthyStr t.content || t.link.isSome) = true
      · have hc' : (truthyStr (some (jsStrOr t.content "")) ||
            (t.link.map (fun l => NLink.mk l.url)).isSome) = true := by
          rcases Bool.or_eq_true _ _ |>.mp hc with h | h
          · cases hco : t.content with
            | none => simp [truthyStr, hco] at h
            | some c =>
              have hcc : ¬ c = "" := by simpa [truthyStr, hco] using h
              simp [jsStrOr_some_empty, truthyStr, hco, hcc]
          · simp [h]
        simp only [hc, if_true, hc', if_true, Option.some.injEq]
        refine NTextObj.ext ?_ ?_
        · simp [jsStrOr_some_empty]
        · cases t.link with
          | none => rfl
          | some l => rfl
      · simp [hc]
  · -- href
    show (minimizeSpan (minimizeSpan s)).href = (minimizeSpan s).href
    simp only [minimizeSpan]
    cases s.href with
    | none => simp [truthyStr]
    | some h =>
      by_cases hh : h = ""
      · simp [truthyStr, hh]
      · simp [truthyStr, hh]

theorem minimizeRichText_idem (l : List NSpan) :
    minimizeRichText (minimizeRichText l) = minimizeRichText l := by
  simp [minimizeRichText, Function.comp, minimizeSpan_idem]

theorem minimizeRichText_length (l : List NSpan) :
    (minimizeRichText l).length = l.length := by
  simp [minimizeRichText]

/-! ## Block trees (`minimizeBlock`, lines 339–464)

A block is `{ id, type, has_children }` plus the payload stored under the key
named by `type` (`block[type]`); `data = none` models a block whose payload
key is absent.  The payload object carries every field the minimizer ever
reads; `NBlockList` is the list of child blocks (a separate mutual inductive
so that the recursion stays structural). -/

/-- A callout icon (`{ emoji, type }`). -/
@[ext]
structure NIcon where
  emoji : Option String
  type : Option String
deriving DecidableEq, Repr

/-- An `external` media reference (`{ url }`). -/
@[ext]
structure NFileRef where
  url : Option String
deriving DecidableEq, Repr

/-- A hosted `file` media reference (`{ url, expiry_time }`). -/
@[ext]
structure NFileObj where
  url : Option String
  expiry_time : Option String
deriving DecidableEq, Repr

mutual

inductive NBlock : Type where
  | mk (id : String) (type : String) (has_children : Option Bool)
       (data : Option NBlockData) : NBlock

inductive NBlockData : Type where
  | mk (text : Option (List NSpan)) (children : Option NBlockList)
       (icon : Option NIcon) (type : Option String)
       (external : Option NFileRef) (file : Option NFileObj)
       (caption : Option (List NSpan)) (language : Option String)
       (url : Option String) (has_column_header : Option Bool)
       (has_row_header : Option Bool) (cells : Option (List (List NSpan)))
       (column : Option NBlockList) : NBlockData

inductive NBlockList : Type where
  | nil : NBlockList
  | cons (head : NBlock) (tail : NBlockList) : NBlockList

end

def NBlock.id : NBlock → String
  | .mk i _ _ _ => i

def NBlock.type : NBlock → String
  | .mk _ t _ _ => t

def NBlock.has_children : NBlock → Option Bool
  | .mk _ _ h _ => h

def NBlock.data : NBlock → Option NBlockData
  | .mk _ _ _ d => d

def NBlockList.length : NBlockList → Nat
  | .nil => 0
  | .cons _ t => t.length + 1

/-- The all-absent payload (the JS empty object). -/
def NBlockData.empty : NBlockData :=
  .mk none none none none none none none none none none none none none

/-- Payload `{ text, children? }` of the text-carrying block branches. -/
def payloadText (t : Option (List NSpan)) (ch : Option NBlockList) : NBlockData :=
  .mk t ch none none none none none none none none none none none

/-- Payload `{ text, icon, children? }` of the `callout` branch. -/
def payloadCallout (t : Option (List NSpan)) (ic : Option NIcon)
    (ch : Option NBlockList) : NBlockData :=
  .mk t ch ic none none none none none none none none none none

/-- Payload `{ type, external | file, caption? }` of the `image`/`video` branch. -/
def payloadMedia (dt : Option String) (ext : Option NFileRef) (fl : Option NFileObj)
    (cap : Option (List NSpan)) : NBlockData :=
  .mk none none none dt ext fl cap none none none none none none

/-- Payload `{ text, language, caption? }` of the `code` branch. -/
def payloadCode (t : Option (List NSpan)) (lang : String)
    (cap : Option (List NSpan)) : NBlockData :=
  .mk t none none none none none cap (some lang) none none none none none

/-- Payload `{ url, caption? }` of the `embed` branch. -/
def payloadEmbed (u : Option String) (cap : Option (List NSpan)) : NBlockData :=
  .mk none none none none none none cap none u none none none none

/-- Payload `{ has_column_header, has_row_header, children? }` of the `table` branch. -/
def payloadTable (hch hrh : Bool) (ch : Option NBlockList) : NBlockData :=
  .mk none ch none none none none none none none (some hch) (some hrh) none none

/-- Payload `{ cells }` of the `table_row` branch. -/
def payloadTableRow (cs : List (List NSpan)) : NBlockData :=
  .mk none none none none none none none none none none none (some cs) none

/-- Payload `{ column }` of the `column` branch. -/
def payloadColumn (col : NBlockList) : NBlockData :=
  .mk none none none none none none none none none none none none (some col)

/-- The `caption` field construction shared by several branches:
`blockData.caption && blockData.caption.length > 0 ? { caption: minimizeRichText(...) } : {}`. -/
def minCaptionField (c : Option (List NSpan)) : Option (List NSpan) :=
  match c with
  | none => none
  | some l => if l.length > 0 then some (minimizeRichText l) else none

/-- The `text` field construction `text: minimizeRichText(blockData.text)`
(an absent input field yields an absent output field, as `minimizeRichText`
returns its argument when it is not an array). -/
def minTextField (t : Option (List NSpan)) : Option (List NSpan) :=
  t.map minimizeRichText

/-- The `image`/`video` arm (TS lines 385–399): keep the sub-kind, resolve the
`external` or hosted `file` reference (a missing reference is a JS crash,
hence `Option.map`), and keep a non-empty caption. -/
def payloadMediaArm : Option NBlockData → Option NBlockData
  | none => none
  | some (.mk _ _ _ dtype ext file caption _ _ _ _ _ _) =>
    if dtype = some "external" then
      ext.map (fun e => payloadMedia dtype (some ⟨e.url⟩) none (minCaptionField caption))
    else
      file.map (fun f =>
        payloadMedia dtype none (some ⟨f.url, f.expiry_time⟩) (minCaptionField caption))

/-- The `code` arm (TS lines 400–407). -/
def payloadCodeArm : Option NBlockData → Option NBlockData
  | none => none
  | some (.mk text _ _ _ _ _ caption language _ _ _ _ _) =>
    some (payloadCode
      (some (match text with | some l => minimizeRichText l | none => []))
      (jsStrOr language "plain text")
      (minCaptionField caption))

/-- The `embed` arm (TS lines 411–417). -/
def payloadEmbedArm : Option NBlockData → Option NBlockData
  | none => none
  | some (.mk _ _ _ _ _ _ caption _ url _ _ _ _) =>
    some (payloadEmbed url (minCaptionField caption))

/-- The `table_row` arm (TS lines 426–429). -/
def payloadTableRowArm : Option NBlockData → Option NBlockData
  | none => none
  | some (.mk _ _ _ _ _ _ _ _ _ _ _ cells _) =>
    some (payloadTableRow
      (match cells with | some cs => cs.map minimizeRichText | none => []))

mutual

/-- Shallow embedding of `minimizeBlock` (TS lines 339–464).  A JS `TypeError`
(field access on an `undefined` payload) is modelled by the result `none`.
Each `if` arm of the source becomes a payload-arm function applied to
`block[type]`; the three text arms of TS lines 353–373 have identical bodies
and share `payloadTextArm`. -/
def minimizeBlock : NBlock → Option NBlock
  | .mk id ty hc data =>
    if ty = "paragraph" ∨ ty = "heading_1" ∨ ty = "heading_2" ∨ ty = "heading_3" ∨
        ty = "quote" ∨ ty = "bulleted_list_item" ∨ ty = "numbered_list_item" then
      (payloadTextArm data).map (fun p => NBlock.mk id ty hc (some p))
    else if ty = "callout" then
      (payloadCalloutArm data).map (fun p => NBlock.mk id ty hc (some p))
    else if ty = "image" ∨ ty = "video" then
      (payloadMediaArm data).map (fun p => NBlock.mk id ty hc (some p))
    else if ty = "code" then
      (payloadCodeArm data).map (fun p => NBlock.mk id ty hc (some p))
    else if ty = "divider" then
      some (NBlock.mk id ty hc (some NBlockData.empty))
    else if ty = "embed" then
      (payloadEmbedArm data).map (fun p => NBlock.mk id ty hc (some p))
    else if ty = "table" then
      (payloadTableArm data).map (fun p => NBlock.mk id ty hc (some p))
    else if ty = "table_row" then
      (payloadTableRowArm data).map (fun p => NBlock.mk id ty hc (some p))
    else if ty = "column_list" then
      (payloadColumnListArm data).map (fun p => NBlock.mk id ty hc (some p))
    else if ty = "column" then
      (payloadColumnArm data).map (fun p => NBlock.mk id ty hc (some p))
    else
      (payloadUnknownArm data).map (fun p => NBlock.mk id ty hc (some p))

/-- The text-block arm (TS lines 353–373): minimized rich text plus minimized
children when present and non-empty. -/
def payloadTextArm : Option NBlockData → Option NBlockData
  | none => none
  | some (.mk text children _ _ _ _ _ _ _ _ _ _ _) =>
    (minChildrenField children).map (payloadText (minTextField text))

/-- The `callout` arm (TS lines 374–384): also keeps the icon emoji and kind. -/
def payloadCalloutArm : Option NBlockData → Option NBlockData
  | none => none
  | some (.mk text children icon _ _ _ _ _ _ _ _ _ _) =>
    (minChildrenField children).map
      (payloadCallout (minTextField text) (icon.map (fun i => ⟨i.emoji, i.type⟩)))

/-- The `table` arm (TS lines 418–425). -/
def payloadTableArm : Option NBlockData → Option NBlockData
  | none => none
  | some (.mk _ children _ _ _ _ _ _ _ hch hrh _ _) =>
    (minChildrenField children).map
      (payloadTable (truthyBool hch) (truthyBool hrh))

/-- The `column_list` arm (TS lines 430–433): the children key is always
emitted, `[]` when absent. -/
def payloadColumnListArm : Option NBlockData → Option NBlockData
  | none => none
  | some (.mk _ children _ _ _ _ _ _ _ _ _ _ _) =>
    match children with
    | some l => (minimizeBlockList l).map (fun m => payloadText none (some m))
    | none => some (payloadText none (some .nil))

/-- The `column` arm (TS lines 434–446): prefer the `column` key, then
`children`, else an empty payload. -/
def payloadColumnArm : Option NBlockData → Option NBlockData
  | none => none
  | some (.mk _ children _ _ _ _ _ _ _ _ _ _ column) =>
    match column with
    | some l => (minimizeBlockList l).map (fun m => payloadColumn m)
    | none =>
      match children with
      | some l => (minimizeBlockList l).map (fun m => payloadText none (some m))
      | none => some NBlockData.empty

/-- The fallback arm for unknown types (TS lines 447–460): minimize a `text`
field when present, else pass the payload through unchanged, else emit an
empty payload. -/
def payloadUnknownArm : Option NBlockData → Option NBlockData
  | none => some NBlockData.empty
  | some (.mk text children ic dt ex fl cap lang u hch hrh cs col) =>
    match text with
    | some t =>
      (minChildrenField children).map (payloadText (some (minimizeRichText t)))
    | none => some (.mk none children ic dt ex fl cap lang u hch hrh cs col)

/-- The children-field construction shared by several branches:
`blockData.children && blockData.children.length > 0 ? { children: map minimizeBlock } : {}`. -/
def minChildrenField : Option NBlockList → Option (Option NBlockList)
  | none => some none
  | some l =>
    if l.length > 0 then
      (minimizeBlockList l).map (fun m => some m)
    else some none

/-- `children.map(child => minimizeBlock(child))`; a crash in any element
propagates. -/
def minimizeBlockList : NBlockList → Option NBlockList
  | .nil => some .nil
  | .cons b t =>
    match minimizeBlock b with
    | none => none
    | some b' =>
      match minimizeBlockList t with
      | none => none
      | some t' => some (.cons b' t')

end

/-! ### Idempotence of the minimizer (field-level lemmas) -/

theorem minTextField_idem (t : Option (List NSpan)) :
    minTextField (minTextField t) = minTextField t := by
  cases t <;> simp [minTextField, minimizeRichText_idem]

theorem minCaptionField_idem (c : Option (List NSpan)) :
    minCaptionField (minCaptionField c) = minCaptionField c := by
  cases c with
  | none => rfl
  | some l =>
    by_cases h : l.length > 0
    · simp [minCaptionField, h, minimizeRichText_length, minimizeRichText_idem]
    · simp [minCaptionField, h]

theorem mapRT_idem (cs : List (List NSpan)) :
    (cs.map minimizeRichText).map minimizeRichText = cs.map minimizeRichText := by
  rw [List.map_map]
  exact List.map_congr_left (fun a _ => minimizeRichText_idem a)

theorem minIconMap_idem (ic : Option NIcon) :
    ((ic.map (fun i => (⟨i.emoji, i.type⟩ : NIcon))).map
      (fun i => (⟨i.emoji, i.type⟩ : NIcon))) =
    ic.map (fun i => (⟨i.emoji, i.type⟩ : NIcon)) := by
  cases ic <;> rfl

theorem minimizeBlockList_length_eq : ∀ (l m : NBlockList),
    minimizeBlockList l = some m → m.length = l.length
  | .nil, m, h => by
    simp only [minimizeBlockList, Option.some.injEq] at h
    rw [← h]
  | .cons b t, m, h => by
    rcases hb : minimizeBlock b with _ | b'
    · simp only [minimizeBlockList, hb] at h
      exact Option.noConfusion h
    · rcases ht : minimizeBlockList t with _ | t'
      · simp only [minimizeBlockList, hb, ht] at h
        exact Option.noConfusion h
      · simp only [minimizeBlockList, hb, ht, Option.some.injEq] at h
        have hlen := minimizeBlockList_length_eq t t' ht
        rw [← h]
        simp [NBlockList.length, hlen]

theorem mRT_match_idem (text : Option (List NSpan)) :
    minimizeRichText (match text with | some l => minimizeRichText l | none => []) =
    (match text with | some l => minimizeRichText l | none => []) := by
  rcases text with _ | l
  · rfl
  · exact minimizeRichText_idem l

theorem mapRT_match_idem (cs : Option (List (List NSpan))) :
    (match cs with
      | some l => l.map minimizeRichText
      | none => ([] : List (List NSpan))).map minimizeRichText =
    (match cs with | some l => l.map minimizeRichText | none => []) := by
  rcases cs with _ | l
  · rfl
  · exact mapRT_idem l

theorem payloadMediaArm_idem (d : Option NBlockData) (p : NBlockData)
    (h : payloadMediaArm d = some p) : payloadMediaArm (some p) = some p := by
  rcases d with _ | ⟨text, children, ic, dt, ex, fl, cap, lang, u, hcolh, hrowh, cs, col⟩
  · exact Option.noConfusion h
  · simp only [payloadMediaArm] at h
    by_cases hdt : dt = some "external"
    · rw [if_pos hdt] at h
      rw [Option.map_eq_some'] at h
      obtain ⟨e, he, hp⟩ := h
      subst hp
      show payloadMediaArm (some (payloadMedia dt (some ⟨e.url⟩) none
        (minCaptionField cap))) = _
      simp only [payloadMedia, payloadMediaArm]
      rw [if_pos hdt]
      simp only [Option.map_some', minCaptionField_idem]
    · rw [if_neg hdt] at h
      rw [Option.map_eq_some'] at h
      obtain ⟨f, hf, hp⟩ := h
      subst hp
      show payloadMediaArm (some (payloadMedia dt none (some ⟨f.url, f.expiry_time⟩)
        (minCaptionField cap))) = _
      simp only [payloadMedia, payloadMediaArm]
      rw [if_neg hdt]
      simp only [Option.map_some', minCaptionField_idem]

theorem payloadCodeArm_idem (d : Option NBlockData) (p : NBlockData)
    (h : payloadCodeArm d = some p) : payloadCodeArm (some p) = some p := by
  rcases d with _ | ⟨text, children, ic, dt, ex, fl, cap, lang, u, hcolh, hrowh, cs, col⟩
  · exact Option.noConfusion h
  · simp only [payloadCodeArm, Option.some.injEq] at h
    rw [← h]
    simp only [payloadCode, payloadCodeArm, Option.some.injEq]
    simp only [mRT_match_idem, minCaptionField_idem,
      jsStrOr_of_ne_empty _ _ (jsStrOr_ne_empty lang "plain text" (by decide))]

theorem payloadEmbedArm_idem (d : Option NBlockData) (p : NBlockData)
    (h : payloadEmbedArm d = some p) : payloadEmbedArm (some p) = some p := by
  rcases d with _ | ⟨text, children, ic, dt, ex, fl, cap, lang, u, hcolh, hrowh, cs, col⟩
  · exact Option.noConfusion h
  · simp only [payloadEmbedArm, Option.some.injEq] at h
    rw [← h]
    simp only [payloadEmbed, payloadEmbedArm, Option.some.injEq, minCaptionField_idem]

theorem payloadTableRowArm_idem (d : Option NBlockData) (p : NBlockData)
    (h : payloadTableRowArm d = some p) : payloadTableRowArm (some p) = some p := by
  rcases d with _ | ⟨text, children, ic, dt, ex, fl, cap, lang, u, hcolh, hrowh, cs, col⟩
  · exact Option.noConfusion h
  · simp only [payloadTableRowArm, Option.some.injEq] at h
    rw [← h]
    simp only [payloadTableRow, payloadTableRowArm, Option.some.injEq, mapRT_match_idem]

/-- Strong-induction core: a successful minimization is a fixed point of the
minimizer, simultaneously for blocks, for the optional `children` field, for
child lists, and for every recursive payload arm. -/
theorem minimizeIdemAux : ∀ n : Nat,
    (∀ b y, sizeOf b ≤ n → minimizeBlock b = some y → minimizeBlock y = some y) ∧
    (∀ c c', sizeOf c ≤ n → minChildrenField c = some c' → minChildrenField c' = some c') ∧
    (∀ l m, sizeOf l ≤ n → minimizeBlockList l = some m → minimizeBlockList m = some m) ∧
    (∀ d p, sizeOf d ≤ n → payloadTextArm d = some p → payloadTextArm (some p) = some p) ∧
    (∀ d p, sizeOf d ≤ n → payloadCalloutArm d = some p →
      payloadCalloutArm (some p) = some p) ∧
    (∀ d p, sizeOf d ≤ n → payloadTableArm d = some p → payloadTableArm (some p) = some p) ∧
    (∀ d p, sizeOf d ≤ n → payloadColumnListArm d = some p →
      payloadColumnListArm (some p) = some p) ∧
    (∀ d p, sizeOf d ≤ n → payloadColumnArm d = some p →
      payloadColumnArm (some p) = some p) ∧
    (∀ d p, sizeOf d ≤ n → payloadUnknownArm d = some p →
      payloadUnknownArm (some p) = some p) := by
  intro n
  induction n using Nat.strong_induction_on with
  | _ n ih =>
    refine ⟨?_, ?_, ?_, ?_, ?_, ?_, ?_, ?_, ?_⟩
    · -- blocks
      rintro ⟨id, ty, hc, data⟩ y hn h
      have hk : sizeOf data < n := lt_of_lt_of_le (by simp <;> omega) hn
      simp only [minimizeBlock] at h
      by_cases h1 : ty = "paragraph" ∨ ty = "heading_1" ∨ ty = "heading_2" ∨ ty = "heading_3" ∨
          ty = "quote" ∨ ty = "bulleted_list_item" ∨ ty = "numbered_list_item"
      · rw [if_pos h1, Option.map_eq_some'] at h
        obtain ⟨p, hp, hy⟩ := h
        subst hy
        have hp2 := (ih (sizeOf data) hk).2.2.2.1 data p le_rfl hp
        show minimizeBlock (NBlock.mk id ty hc (some p)) = some (NBlock.mk id ty hc (some p))
        simp only [minimizeBlock]
        rw [if_pos h1, hp2]
        rfl
      · rw [if_neg h1] at h
        by_cases h2 : ty = "callout"
        · rw [if_pos h2, Option.map_eq_some'] at h
          obtain ⟨p, hp, hy⟩ := h
          subst hy
          have hp2 := (ih (sizeOf data) hk).2.2.2.2.1 data p le_rfl hp
          show minimizeBlock (NBlock.mk id ty hc (some p)) = some (NBlock.mk id ty hc (some p))
          simp only [minimizeBlock]
          rw [if_neg h1, if_pos h2, hp2]
          rfl
        · rw [if_neg h2] at h
          by_cases h3 : ty = "image" ∨ ty = "video"
          · rw [if_pos h3, Option.map_eq_some'] at h
            obtain ⟨p, hp, hy⟩ := h
            subst hy
            have hp2 := payloadMediaArm_idem data p hp
            show minimizeBlock (NBlock.mk id ty hc (some p)) = some (NBlock.mk id ty hc (some p))
            simp only [minimizeBlock]
            rw [if_neg h1, if_neg h2, if_pos h3, hp2]
            rfl
          · rw [if_neg h3] at h
            by_cases h4 : ty = "code"
            · rw [if_pos h4, Option.map_eq_some'] at h
              obtain ⟨p, hp, hy⟩ := h
              subst hy
              have hp2 := payloadCodeArm_idem data p hp
              show minimizeBlock (NBlock.mk id ty hc (some p)) =
                some (NBlock.mk id ty hc (some p))
              simp only [minimizeBlock]
              rw [if_neg h1, if_neg h2, if_neg h3, if_pos h4, hp2]
              rfl
            · rw [if_neg h4] at h
              by_cases h5 : ty = "divider"
              · rw [if_pos h5] at h
                rw [← Option.some.inj h]
                simp only [minimizeBlock]
                rw [if_neg h1, if_neg h2, if_neg h3, if_neg h4, if_pos h5]
              · rw [if_neg h5] at h
                by_cases h6 : ty = "embed"
                · rw [if_pos h6, Option.map_eq_some'] at h
                  obtain ⟨p, hp, hy⟩ := h
                  subst hy
                  have hp2 := payloadEmbedArm_idem data p hp
                  show minimizeBlock (NBlock.mk id ty hc (some p)) =
                    some (NBlock.mk id ty hc (some p))
                  simp only [minimizeBlock]
                  rw [if_neg h1, if_neg h2, if_neg h3, if_neg h4, if_neg h5, if_pos h6, hp2]
                  rfl
                · rw [if_neg h6] at h
                  by_cases h7 : ty = "table"
                  · rw [if_pos h7, Option.map_eq_some'] at h
                    obtain ⟨p, hp, hy⟩ := h
                    subst hy
                    have hp2 := (ih (sizeOf data) hk).2.2.2.2.2.1 data p le_rfl hp
                    show minimizeBlock (NBlock.mk id ty hc (some p)) =
                      some (NBlock.mk id ty hc (some p))
                    simp only [minimizeBlock]
                    rw [if_neg h1, if_neg h2, if_neg h3, if_neg h4, if_neg h5, if_neg h6,
                      if_pos h7, hp2]
                    rfl
                  · rw [if_neg h7] at h
                    by_cases h8 : ty = "table_row"
                    · rw [if_pos h8, Option.map_eq_some'] at h
                      obtain ⟨p, hp, hy⟩ := h
                      subst hy
                      have hp2 := payloadTableRowArm_idem data p hp
                      show minimizeBlock (NBlock.mk id ty hc (some p)) =
                        some (NBlock.mk id ty hc (some p))
                      simp only [minimizeBlock]
                      rw [if_neg h1, if_neg h2, if_neg h3, if_neg h4, if_neg h5, if_neg h6,
                        if_neg h7, if_pos h8, hp2]
                      rfl
                    · rw [if_neg h8] at h
                      by_cases h9 : ty = "column_list"
                      · rw [if_pos h9, Option.map_eq_some'] at h
                        obtain ⟨p, hp, hy⟩ := h
                        subst hy
                        have hp2 := (ih (sizeOf data) hk).2.2.2.2.2.2.1 data p le_rfl hp
                        show minimizeBlock (NBlock.mk id ty hc (some p)) =
                          some (NBlock.mk id ty hc (some p))
                        simp only [minimizeBlock]
                        rw [if_neg h1, if_neg h2, if_neg h3, if_neg h4, if_neg h5, if_neg h6,
                          if_neg h7, if_neg h8, if_pos h9, hp2]
                        rfl
                      · rw [if_neg h9] at h
                        by_cases h10 : ty = "column"
                        · rw [if_pos h10, Option.map_eq_some'] at h
                          obtain ⟨p, hp, hy⟩ := h
                          subst hy
                          have hp2 := (ih (sizeOf data) hk).2.2.2.2.2.2.2.1 data p le_rfl hp
                          show minimizeBlock (NBlock.mk id ty hc (some p)) =
                            some (NBlock.mk id ty hc (some p))
                          simp only [minimizeBlock]
                          rw [if_neg h1, if_neg h2, if_neg h3, if_neg h4, if_neg h5, if_neg h6,
                            if_neg h7, if_neg h8, if_neg h9, if_pos h10, hp2]
                          rfl
                        · rw [if_neg h10, Option.map_eq_some'] at h
                          obtain ⟨p, hp, hy⟩ := h
                          subst hy
                          have hp2 := (ih (sizeOf data) hk).2.2.2.2.2.2.2.2 data p le_rfl hp
                          show minimizeBlock (NBlock.mk id ty hc (some p)) =
                            some (NBlock.mk id ty hc (some p))
                          simp only [minimizeBlock]
                          rw [if_neg h1, if_neg h2, if_neg h3, if_neg h4, if_neg h5, if_neg h6,
                            if_neg h7, if_neg h8, if_neg h9, if_neg h10, hp2]
                          rfl
    · -- the children field
      rintro c c' hn h
      rcases c with _ | l
      · simp only [minChildrenField, Option.some.injEq] at h
        rw [← h]
        rfl
      · simp only [minChildrenField] at h
        by_cases hl : l.length > 0
        · rw [if_pos hl, Option.map_eq_some'] at h
          obtain ⟨m, hml, hc'⟩ := h
          subst hc'
          have hk : sizeOf l < n := lt_of_lt_of_le (by simp <;> omega) hn
          have hml2 := (ih (sizeOf l) hk).2.2.1 l m le_rfl hml
          have hlen := minimizeBlockList_length_eq l m hml
          show minChildrenField (some m) = some (some m)
          simp only [minChildrenField]
          rw [if_pos (by rw [hlen]; exact hl), hml2]
          rfl
        · rw [if_neg hl] at h
          rw [← Option.some.inj h]
          rfl
    · -- child lists
      rintro l m hn h
      rcases l with _ | ⟨b, t⟩
      · simp only [minimizeBlockList, Option.some.injEq] at h
        rw [← h]
        rfl
      · rcases hb : minimizeBlock b with _ | b'
        · simp only [minimizeBlockList, hb] at h
          exact Option.noConfusion h
        · rcases ht : minimizeBlockList t with _ | t'
          · simp only [minimizeBlockList, hb, ht] at h
            exact Option.noConfusion h
          · simp only [minimizeBlockList, hb, ht, Option.some.injEq] at h
            have hkb : sizeOf b < n := lt_of_lt_of_le (by simp <;> omega) hn
            have hkt : sizeOf t < n := lt_of_lt_of_le (by simp <;> omega) hn
            have hb2 : minimizeBlock b' = some b' := (ih (sizeOf b) hkb).1 b b' le_rfl hb
            have ht2 : minimizeBlockList t' = some t' := (ih (sizeOf t) hkt).2.2.1 t t' le_rfl ht
            rw [← h]
            simp only [minimizeBlockList, hb2, ht2]
    · -- text arm
      rintro d p hn h
      rcases d with _ | ⟨text, children, ic, dt, ex, fl, cap, lang, u, hcolh, hrowh, cs, col⟩
      · exact Option.noConfusion h
      · simp only [payloadTextArm, Option.map_eq_some'] at h
        obtain ⟨ch, hch, hp⟩ := h
        subst hp
        have hk : sizeOf children < n := lt_of_lt_of_le (by simp <;> omega) hn
        have hch2 := (ih (sizeOf children) hk).2.1 children ch le_rfl hch
        show payloadTextArm (some (payloadText (minTextField text) ch)) =
          some (payloadText (minTextField text) ch)
        simp only [payloadText, payloadTextArm, hch2, Option.map_some', minTextField_idem]
    · -- callout arm
      rintro d p hn h
      rcases d with _ | ⟨text, children, ic, dt, ex, fl, cap, lang, u, hcolh, hrowh, cs, col⟩
      · exact Option.noConfusion h
      · simp only [payloadCalloutArm, Option.map_eq_some'] at h
        obtain ⟨ch, hch, hp⟩ := h
        subst hp
        have hk : sizeOf children < n := lt_of_lt_of_le (by simp <;> omega) hn
        have hch2 := (ih (sizeOf children) hk).2.1 children ch le_rfl hch
        show payloadCalloutArm (some (payloadCallout (minTextField text)
          (ic.map (fun i => ⟨i.emoji, i.type⟩)) ch)) = _
        simp only [payloadCallout, payloadCalloutArm, hch2, Option.map_some',
          minTextField_idem, minIconMap_idem]
    · -- table arm
      rintro d p hn h
      rcases d with _ | ⟨text, children, ic, dt, ex, fl, cap, lang, u, hcolh, hrowh, cs, col⟩
      · exact Option.noConfusion h
      · simp only [payloadTableArm, Option.map_eq_some'] at h
        obtain ⟨ch, hch, hp⟩ := h
        subst hp
        have hk : sizeOf children < n := lt_of_lt_of_le (by simp <;> omega) hn
        have hch2 := (ih (sizeOf children) hk).2.1 children ch le_rfl hch
        show payloadTableArm (some (payloadTable (truthyBool hcolh) (truthyBool hrowh) ch)) = _
        simp only [payloadTable, payloadTableArm, hch2, Option.map_some', truthyBool,
          Option.getD_some]
    · -- column_list arm
      rintro d p hn h
      rcases d with _ | ⟨text, children, ic, dt, ex, fl, cap, lang, u, hcolh, hrowh, cs, col⟩
      · exact Option.noConfusion h
      · rcases children with _ | l
        · simp only [payloadColumnListArm, Option.some.injEq] at h
          rw [← h]
          simp only [payloadText, payloadColumnListArm, minimizeBlockList, Option.map_some']
        · simp only [payloadColumnListArm, Option.map_eq_some'] at h
          obtain ⟨m, hml, hp⟩ := h
          subst hp
          have hk : sizeOf l < n := lt_of_lt_of_le (by simp <;> omega) hn
          have hml2 := (ih (sizeOf l) hk).2.2.1 l m le_rfl hml
          show payloadColumnListArm (some (payloadText none (some m))) =
            some (payloadText none (some m))
          simp only [payloadText, payloadColumnListArm, hml2, Option.map_some']
    · -- column arm
      rintro d p hn h
      rcases d with _ | ⟨text, children, ic, dt, ex, fl, cap, lang, u, hcolh, hrowh, cs, col⟩
      · exact Option.noConfusion h
      · rcases col with _ | l
        · rcases children with _ | l
          · simp only [payloadColumnArm, Option.some.injEq] at h
            rw [← h]
            simp only [NBlockData.empty, payloadColumnArm]
          · simp only [payloadColumnArm, Option.map_eq_some'] at h
            obtain ⟨m, hml, hp⟩ := h
            subst hp
            have hk : sizeOf l < n := lt_of_lt_of_le (by simp <;> omega) hn
            have hml2 := (ih (sizeOf l) hk).2.2.1 l m le_rfl hml
            show payloadColumnArm (some (payloadText none (some m))) =
              some (payloadText none (some m))
            simp only [payloadText, payloadColumnArm, hml2, Option.map_some']
        · simp only [payloadColumnArm, Option.map_eq_some'] at h
          obtain ⟨m, hml, hp⟩ := h
          subst hp
          have hk : sizeOf l < n := lt_of_lt_of_le (by simp <;> omega) hn
          have hml2 := (ih (sizeOf l) hk).2.2.1 l m le_rfl hml
          show payloadColumnArm (some (payloadColumn m)) = some (payloadColumn m)
          simp only [payloadColumn, payloadColumnArm, hml2, Option.map_some']
    · -- unknown-type arm
      rintro d p hn h
      rcases d with _ | ⟨text, children, ic, dt, ex, fl, cap, lang, u, hcolh, hrowh, cs, col⟩
      · simp only [payloadUnknownArm, Option.some.injEq] at h
        rw [← h]
        simp only [NBlockData.empty, payloadUnknownArm]
      · rcases text with _ | t
        · simp only [payloadUnknownArm, Option.some.injEq] at h
          rw [← h]
          simp only [payloadUnknownArm]
        · simp only [payloadUnknownArm, Option.map_eq_some'] at h
          obtain ⟨ch, hch, hp⟩ := h
          subst hp
          have hk : sizeOf children < n := lt_of_lt_of_le (by simp <;> omega) hn
          have hch2 := (ih (sizeOf children) hk).2.1 children ch le_rfl hch
          show payloadUnknownArm (some (payloadText (some (minimizeRichText t)) ch)) =
            some (payloadText (some (minimizeRichText t)) ch)
          simp only [payloadText, payloadUnknownArm, hch2, Option.map_some',
            minimizeRichText_idem]

/-- Hypothesised form of minimizer idempotence. -/
theorem minimizeBlock_idem (b y : NBlock) (h : minimizeBlock b = some y) :
    minimizeBlock y = some y :=
  (minimizeIdemAux (sizeOf b)).1 b y le_rfl h

/-! ## List grouping (`groupListBlocks`, TS lines 584–614) -/

/-- The synthetic grouping entity produced by the list-grouping pass:
`{ id, type: "ul" | "ol", items }`. -/
@[ext]
structure ListBlock where
  id : String
  type : String
  items : List NBlock

/-- An element of the output sequence: an ordinary block or a `ListBlock`. -/
abbrev GroupedBlock : Type := Sum NBlock ListBlock

/-- The loop body of `groupListBlocks`, with the accumulated current list as
explicit state.  The TS loop pushes finished groups onto `updatedBlocks`;
this recursion emits them in the same order. -/
def groupGo : List NBlock → Option ListBlock → List GroupedBlock
  | [], none => []
  | [], some cl => [Sum.inr cl]
  | b :: rest, curr =>
    if b.type = "bulleted_list_item" ∨ b.type = "numbered_list_item" then
      match curr with
      | none =>
        groupGo rest (some ⟨b.id, if b.type = "bulleted_list_item" then "ul" else "ol", [b]⟩)
      | some cl => groupGo rest (some ⟨cl.id, cl.type, cl.items ++ [b]⟩)
    else
      match curr with
      | none => Sum.inl b :: groupGo rest none
      | some cl => Sum.inr cl :: Sum.inl b :: groupGo rest none

/-- Shallow embedding of `groupListBlocks`. -/
def groupListBlocks (blocks : List NBlock) : List GroupedBlock :=
  groupGo blocks none

/-- Is this block a list item (of either kind)? -/
def isListItem (b : NBlock) : Bool :=
  b.type = "bulleted_list_item" || b.type = "numbered_list_item"

/-- The "ul"/"ol" tag derived from a block's type. -/
def listKind (b : NBlock) : String :=
  if b.type = "bulleted_list_item" then "ul" else "ol"

/-- Reference semantics used by the amended grouping claim: each maximal
consecutive run of list items (of either kind) becomes one `ListBlock` whose
id and kind come from the run's first member. -/
theorem dropWhile_length_le (p : NBlock → Bool) :
    ∀ l : List NBlock, (l.dropWhile p).length ≤ l.length := by
  intro l
  induction l with
  | nil => simp [List.dropWhile]
  | cons a t ih =>
    simp only [List.dropWhile]
    cases p a
    · simp
    · simpa using Nat.le_succ_of_le ih

def groupRuns : List NBlock → List GroupedBlock
  | [] => []
  | b :: rest =>
    if isListItem b then
      Sum.inr ⟨b.id, listKind b, b :: rest.takeWhile isListItem⟩ ::
        groupRuns (rest.dropWhile isListItem)
    else
      Sum.inl b :: groupRuns rest
termination_by l => l.length
decreasing_by
  · simp only [List.length_cons]
    exact Nat.lt_succ_of_le (dropWhile_length_le isListItem rest)
  · simp

/-- Flattening a grouped sequence: a plain block stands for itself, a
`ListBlock` for its item run. -/
def flattenGrouped (l : List GroupedBlock) : List NBlock :=
  l.flatMap (fun g => match g with | Sum.inl b => [b] | Sum.inr lb => lb.items)

theorem flattenGrouped_cons (g : GroupedBlock) (l : List GroupedBlock) :
    flattenGrouped (g :: l) =
      (match g with | Sum.inl b => [b] | Sum.inr lb => lb.items) ++ flattenGrouped l := rfl

theorem groupGo_flatten : ∀ (l : List NBlock) (curr : Option ListBlock),
    flattenGrouped (groupGo l curr) =
      (match curr with | none => [] | some cl => cl.items) ++ l := by
  intro l
  induction l with
  | nil => rintro (_ | cl) <;> simp [groupGo, flattenGrouped]
  | cons b rest ihl =>
    rintro (_ | cl) <;>
      by_cases hb : b.type = "bulleted_list_item" ∨ b.type = "numbered_list_item" <;>
      simp [groupGo, hb, ihl, flattenGrouped_cons]

theorem groupGo_eq_runs : ∀ l : List NBlock,
    (groupGo l none = groupRuns l) ∧
    (∀ i t items, groupGo l (some ⟨i, t, items⟩) =
      Sum.inr ⟨i, t, items ++ l.takeWhile isListItem⟩ ::
        groupRuns (l.dropWhile isListItem)) := by
  intro l
  induction l with
  | nil =>
    constructor
    · simp [groupGo, groupRuns]
    · intro i t items
      simp [groupGo, groupRuns, List.takeWhile, List.dropWhile]
  | cons b rest ihl =>
    have hiff : (b.type = "bulleted_list_item" ∨ b.type = "numbered_list_item") ↔
        isListItem b = true := by
      simp [isListItem]
    by_cases hb : b.type = "bulleted_list_item" ∨ b.type = "numbered_list_item"
    · have hli : isListItem b = true := hiff.mp hb
      constructor
      · rw [show groupGo (b :: rest) none = groupGo rest
            (some ⟨b.id, if b.type = "bulleted_list_item" then "ul" else "ol", [b]⟩) from by
          simp [groupGo, hb]]
        rw [(ihl.2 _ _ _)]
        simp [groupRuns, listKind, hli, List.takeWhile_cons, List.dropWhile_cons]
      · intro i t items
        rw [show groupGo (b :: rest) (some ⟨i, t, items⟩) =
            groupGo rest (some ⟨i, t, items ++ [b]⟩) from by simp [groupGo, hb]]
        rw [(ihl.2 _ _ _)]
        simp [List.takeWhile_cons, List.dropWhile_cons, hli]
    · have hli : isListItem b = false := by
        rcases Bool.eq_false_or_eq_true (isListItem b) with hx | hx
        · exact absurd (hiff.mpr hx) hb
        · exact hx
      constructor
      · rw [show groupGo (b :: rest) none = Sum.inl b :: groupGo rest none from by
          simp [groupGo, hb]]
        rw [ihl.1]
        simp [groupRuns, hli]
      · intro i t items
        rw [show groupGo (b :: rest) (some ⟨i, t, items⟩) =
            Sum.inr ⟨i, t, items⟩ :: Sum.inl b :: groupGo rest none from by
          simp [groupGo, hb]]
        rw [ihl.1]
        simp [groupRuns, List.takeWhile_cons, List.dropWhile_cons, hli]

/-! ## Resilient call wrapper (`isRetryableError` lines 59–74, `withRetry` 91–125)

Timing (timeout, backoff delay, jitter) is not modelled; the model captures
the classification of errors and the attempt/retry control flow. -/

/-- An error value as inspected by `isRetryableError`. -/
structure NotionError where
  code : Option String
  status : Option Nat
  message : Option String
deriving DecidableEq, Repr

/-- A JS value that is either a number, a string (a regex capture), or
`undefined` — the possible values of the local `status` in the source. -/
inductive JSVal : Type where
  | num (n : Nat) : JSVal
  | str (s : String) : JSVal
  | undef : JSVal
deriving DecidableEq, Repr

/-- JS strict equality `v === n` against a number literal: a string capture is
never strictly equal to a number. -/
def strictEqNum (v : JSVal) (n : Nat) : Bool :=
  match v with
  | .num m => m == n
  | .str _ => false
  | .undef => false

/-- The whitespace class used by the `\s*` of the status regex (the common
subset of JS `\s` relevant to these messages). -/
def isJsSpace (c : Char) : Bool :=
  c = ' ' || c = '\t' || c = '\n' || c = '\r'

/-- Try to match `status:\s*(\d+)` at the head of the character list and
return the capture (a string of digits). -/
def matchStatusAt (l : List Char) : Option String :=
  if l.take 7 = "status:".toList then
    let ds := ((l.drop 7).dropWhile isJsSpace).takeWhile Char.isDigit
    if ds = [] then none else some (String.mk ds)
  else none

/-- `message.match(/status:\s*(\d+)/)?.[1]`: the capture at the first position
where the whole pattern (including at least one digit) matches. -/
def findStatusCapture : List Char → Option String
  | [] => none
  | c :: rest =>
    match matchStatusAt (c :: rest) with
    | some s => some s
    | none => findStatusCapture rest

/-- `error?.message?.match(...)?.[1]` as a `JSVal` (`undefined` when the
message is absent or the pattern does not match). -/
def statusFallback (msg : Option String) : JSVal :=
  match msg with
  | none => .undef
  | some m =>
    match findStatusCapture m.toList with
    | some s => .str s
    | none => .undef

def hasPrefixL : List Char → List Char → Bool
  | _, [] => true
  | [], _ :: _ => false
  | a :: as, b :: bs => a == b && hasPrefixL as bs

def containsL : List Char → List Char → Bool
  | [], p => p.isEmpty
  | a :: rest, p => hasPrefixL (a :: rest) p || containsL rest p

/-- JS `String.prototype.includes`. -/
def strIncludes (hay pat : String) : Bool :=
  containsL hay.toList pat.toList

/-- Shallow embedding of `isRetryableError` (TS lines 59–74).  Note the local
`status` is `error.status` (a number) when that is truthy, else the regex
capture (a string); the subsequent `===` comparisons are against numbers. -/
def isRetryableError (e : NotionError) : Bool :=
  if e.code = some "notionhq_client_response_error" then
    let status : JSVal :=
      match e.status with
      | some n => if n ≠ 0 then .num n else statusFallback e.message
      | none => statusFallback e.message
    strictEqNum status 502 || strictEqNum status 503 || strictEqNum status 504 ||
      strictEqNum status 429
  else if e.code = some "ECONNRESET" ∨ e.code = some "ETIMEDOUT" ∨
      e.code = some "ENOTFOUND" then
    true
  else if (match e.message with
      | some m => strIncludes m "timeout" || strIncludes m "TIMEOUT"
      | none => false) then
    true
  else false

def MAX_RETRIES : Nat := 5

/-- The retry loop of `withRetry` (TS lines 98–122), with `remaining =
MAX_RETRIES - attempt`.  `outcomes i` is the result of the `(i+1)`-th
invocation of the wrapped operation; the second component of the result is
the number of invocations performed. -/
def withRetryAux {α : Type} (outcomes : Nat → Except NotionError α) :
    Nat → Nat → Except NotionError α × Nat
  | attempt, remaining =>
    match outcomes attempt with
    | .ok v => (.ok v, attempt + 1)
    | .error e =>
      if !isRetryableError e then (.error e, attempt + 1)
      else
        match remaining with
        | 0 => (.error e, attempt + 1)
        | r + 1 => withRetryAux outcomes (attempt + 1) r

/-- Shallow embedding of `withRetry`: run from attempt 0 with `MAX_RETRIES`
retries remaining. -/
def withRetryModel {α : Type} (outcomes : Nat → Except NotionError α) :
    Except NotionError α × Nat :=
  withRetryAux outcomes 0 MAX_RETRIES

/-! ## Response cache (`getCached`/`setCache`, TS lines 25–49) -/

/-- A cache entry `{ data, timestamp }`. -/
structure CEntry (V : Type) where
  data : V
  timestamp : Nat
deriving DecidableEq, Repr

/-- The `Map` keyed by query strings, as an association list with unique
keys (insertion order is irrelevant to every claim). -/
def CacheMap (V : Type) : Type := List (String × CEntry V)

def mapGet {V : Type} : CacheMap V → String → Option (CEntry V)
  | [], _ => none
  | (k, e) :: rest, key => if k = key then some e else mapGet rest key

def mapSet {V : Type} : CacheMap V → String → CEntry V → CacheMap V
  | [], key, e => [(key, e)]
  | (k, e0) :: rest, key, e =>
    if k = key then (key, e) :: rest else (k, e0) :: mapSet rest key e

def mapDelete {V : Type} : CacheMap V → String → CacheMap V
  | [], _ => []
  | (k, e) :: rest, key => if k = key then rest else (k, e) :: mapDelete rest key

def CACHE_TTL_MS : Nat := 60 * 1000

/-- Shallow embedding of `getCached` (TS lines 35–44); `now` is `Date.now()`.
Returns the JS return value together with the possibly-updated map (an
expired entry is deleted on read). -/
def getCachedM {V : Type} (isDev : Bool) (now : Nat) (cache : CacheMap V)
    (key : String) : Option V × CacheMap V :=
  if !isDev then (none, cache)
  else
    match mapGet cache key with
    | none => (none, cache)
    | some entry =>
      if now - entry.timestamp > CACHE_TTL_MS then (none, mapDelete cache key)
      else (some entry.data, cache)

/-- Shallow embedding of `setCache` (TS lines 46–49). -/
def setCacheM {V : Type} (isDev : Bool) (now : Nat) (cache : CacheMap V)
    (key : String) (v : V) : CacheMap V :=
  if !isDev then cache
  else mapSet cache key ⟨v, now⟩

/-- The read-through pattern shared by `getDatabase`, `getPage` and
`getBlocks` (`if (cached) return cached` — the cached values there are
objects or arrays, hence truthy): returns the value, the new cache state,
and whether the underlying fetch ran. -/
def cachedFetch {V : Type} (isDev : Bool) (now : Nat) (st : CacheMap V)
    (key : String) (fetched : V) : V × CacheMap V × Bool :=
  match getCachedM isDev now st key with
  | (some v, st1) => (v, st1, false)
  | (none, st1) => (fetched, setCacheM isDev now st1 key fetched, true)

/-! ## Posts (`getDatabase` lines 132–181, `getPostBySlug` 188–232) -/

/-- A date property value; `start` is the parsed time value
`new Date(start).getTime()` of the source (date-string parsing is abstracted
to its resulting timestamp). -/
structure DateObj where
  start : Nat
deriving DecidableEq, Repr

/-- The property fields of a raw collection record that the queries read
(`properties.Date.date`, `properties.Description.rich_text`,
`properties.Slug.rich_text`, `properties.Page.title`,
`properties.Authors.people`, `properties.Published.checkbox`). -/
structure PostRecord where
  date : Option DateObj
  description : List NSpan
  slug : List NSpan
  title : List NSpan
  authors : List String
  published : Option Bool
deriving DecidableEq, Repr

/-- The field-completeness validation of `getPostBySlug` (TS lines 217–222). -/
def isValidPost (p : PostRecord) : Bool :=
  p.date.isSome && decide (p.description.length > 0) && decide (p.slug.length > 0) &&
    decide (p.title.length > 0) && decide (p.authors.length > 0)

/-- Shallow embedding of `getPostBySlug` (TS lines 188–232) for a fixed cache
key; `response` is `response.results[0] ?? null`.  The third component
records whether the underlying query ran. -/
def getPostBySlugM (isDev : Bool) (now : Nat) (st : CacheMap (Option PostRecord))
    (key : String) (response : Option PostRecord) :
    Option PostRecord × CacheMap (Option PostRecord) × Bool :=
  let g := getCachedM isDev now st key
  -- the JS variable `cached`: a cache miss returns null, and a stored null
  -- is returned as-is, so the two are indistinguishable at the call site
  let cachedJS : Option PostRecord := match g.1 with | some v => v | none => none
  if cachedJS.isSome then (cachedJS, g.2, false)
  else
    match response with
    | some p =>
      if !(isValidPost p) then (none, setCacheM isDev now g.2 key none, true)
      else (some p, setCacheM isDev now g.2 key (some p), true)
    | none => (none, setCacheM isDev now g.2 key none, true)

/-- The filter predicate of `getDatabase` (TS lines 163–171). -/
def postFilter (includeUnpublished : Bool) (r : PostRecord) : Bool :=
  r.date.isSome && decide (r.description.length > 0) && decide (r.slug.length > 0) &&
    decide (r.title.length > 0) && decide (r.authors.length > 0) &&
    (includeUnpublished || truthyBool r.published)

/-- The sort key `new Date(r.properties.Date.date.start).getTime()`; the
filter guarantees the date is present, the `0` default is never reached on
filtered records. -/
def dateKey (r : PostRecord) : Nat :=
  match r.date with
  | some d => d.start
  | none => 0

/-- The comparator of TS lines 172–177: `dateB.getTime() - dateA.getTime()`. -/
def byDateDesc (a b : PostRecord) : Int :=
  (dateKey b : Int) - (dateKey a : Int)

/-- Stable insertion: `x` (arriving later) goes before `y` only when the
comparator orders it strictly earlier. -/
def jsInsert {α : Type} (cmp : α → α → Int) (x : α) : List α → List α
  | [] => [x]
  | y :: ys => if cmp x y < 0 then x :: y :: ys else y :: jsInsert cmp x ys

/-- `Array.prototype.sort` with a comparator: a stable comparison sort
(guaranteed stable by the ECMAScript specification). -/
def jsStableSort {α : Type} (cmp : α → α → Int) (l : List α) : List α :=
  l.foldl (fun acc x => jsInsert cmp x acc) []

/-- The pure core of `getDatabase` (TS lines 162–177): filter the paginated
records, then sort descending by date.  Pagination concatenation and the
development-mode cache wrapper are outside this function; `records` is the
concatenated result list. -/
def getDatabaseM (records : List PostRecord) (includeUnpublished : Bool) :
    List PostRecord :=
  jsStableSort byDateDesc (records.filter (postFilter includeUnpublished))

/-- One `{ params: { slug } }` entry. -/
structure PathParams where
  slug : Option String
deriving DecidableEq, Repr

/-- Shallow embedding of `mapDatabaseToPaths` (TS lines 466–470); the
unguarded `rich_text[0]` access throws (result `none`) on an empty slug
list. -/
def mapDatabaseToPaths (database : List PostRecord) : Option (List PathParams) :=
  database.mapM (fun item =>
    match item.slug with
    | [] => none
    | s :: _ => some ⟨s.plain_text⟩)

/-- The total description of the same mapping, defined on post lists whose
slug lists are non-empty. -/
def pathsOf (database : List PostRecord) : List PathParams :=
  database.map (fun item => ⟨(item.slug.headD ⟨none, none, none, none, none⟩).plain_text⟩)

/-! ### Sortedness and stability of the date sort -/

theorem mem_jsInsert {α : Type} (cmp : α → α → Int) (x a : α) :
    ∀ l, a ∈ jsInsert cmp x l ↔ a = x ∨ a ∈ l := by
  intro l
  induction l with
  | nil => simp [jsInsert]
  | cons y ys ih =>
    by_cases hc : cmp x y < 0 <;> simp [jsInsert, hc, ih] <;> tauto

theorem cmp_lt_iff (a b : PostRecord) : byDateDesc a b < 0 ↔ dateKey b < dateKey a := by
  simp only [byDateDesc]
  omega

theorem jsInsert_pairwise (x : PostRecord) :
    ∀ l, List.Pairwise (fun a b => dateKey b ≤ dateKey a) l →
    List.Pairwise (fun a b => dateKey b ≤ dateKey a) (jsInsert byDateDesc x l) := by
  intro l
  induction l with
  | nil => intro _; simp [jsInsert]
  | cons y ys ih =>
    intro h
    rw [List.pairwise_cons] at h
    obtain ⟨hy, hys⟩ := h
    by_cases hc : byDateDesc x y < 0
    · simp only [jsInsert, if_pos hc]
      rw [List.pairwise_cons]
      refine ⟨?_, List.pairwise_cons.mpr ⟨hy, hys⟩⟩
      intro z hz
      rcases List.mem_cons.mp hz with rfl | hz'
      · exact le_of_lt ((cmp_lt_iff x z).mp hc)
      · exact le_trans (hy z hz') (le_of_lt ((cmp_lt_iff x y).mp hc))
    · simp only [jsInsert, if_neg hc]
      rw [List.pairwise_cons]
      refine ⟨?_, ih hys⟩
      intro z hz
      rcases (mem_jsInsert byDateDesc x z ys).mp hz with rfl | hz'
      · have hnlt : ¬ (dateKey y < dateKey z) := fun hlt => hc ((cmp_lt_iff z y).mpr hlt)
        omega
      · exact hy z hz'

theorem foldl_insert_pairwise : ∀ (l acc : List PostRecord),
    List.Pairwise (fun a b => dateKey b ≤ dateKey a) acc →
    List.Pairwise (fun a b => dateKey b ≤ dateKey a)
      (l.foldl (fun acc x => jsInsert byDateDesc x acc) acc) := by
  intro l
  induction l with
  | nil => intro acc h; simpa using h
  | cons x rest ih =>
    intro acc h
    simp only [List.foldl_cons]
    exact ih _ (jsInsert_pairwise x acc h)

theorem jsStableSort_pairwise (l : List PostRecord) :
    List.Pairwise (fun a b => dateKey b ≤ dateKey a) (jsStableSort byDateDesc l) :=
  foldl_insert_pairwise l [] (by simp)

theorem mem_foldl_insert : ∀ (l acc : List PostRecord) (a : PostRecord),
    a ∈ l.foldl (fun acc x => jsInsert byDateDesc x acc) acc ↔ a ∈ acc ∨ a ∈ l := by
  intro l
  induction l with
  | nil => intro acc a; simp
  | cons x rest ih =>
    intro acc a
    simp only [List.foldl_cons, ih, mem_jsInsert, List.mem_cons]
    tauto

theorem mem_jsStableSort (l : List PostRecord) (a : PostRecord) :
    a ∈ jsStableSort byDateDesc l ↔ a ∈ l := by
  simp [jsStableSort, mem_foldl_insert]

theorem filter_eq_nil_of_lt (k : Nat) : ∀ (l : List PostRecord),
    (∀ z ∈ l, dateKey z < k) → l.filter (fun r => dateKey r = k) = [] := by
  intro l h
  rw [List.filter_eq_nil_iff]
  intro a ha
  simp only [decide_eq_true_eq]
  exact Nat.ne_of_lt (h a ha)

theorem jsInsert_filter (x : PostRecord) (k : Nat) : ∀ (l : List PostRecord),
    List.Pairwise (fun a b => dateKey b ≤ dateKey a) l →
    (jsInsert byDateDesc x l).filter (fun r => dateKey r = k) =
      (if dateKey x = k then l.filter (fun r => dateKey r = k) ++ [x]
       else l.filter (fun r => dateKey r = k)) := by
  intro l
  induction l with
  | nil =>
    intro _
    by_cases hk : dateKey x = k <;> simp [jsInsert, List.filter, hk]
  | cons y ys ih =>
    intro h
    rw [List.pairwise_cons] at h
    obtain ⟨hy, hys⟩ := h
    by_cases hc : byDateDesc x y < 0
    · simp only [jsInsert, if_pos hc]
      by_cases hk : dateKey x = k
      · have hnil : (y :: ys).filter (fun r => dateKey r = k) = [] := by
          apply filter_eq_nil_of_lt
          intro z hz
          rcases List.mem_cons.mp hz with rfl | hz'
          · rw [← hk]
            exact (cmp_lt_iff x z).mp hc
          · rw [← hk]
            exact lt_of_le_of_lt (hy z hz') ((cmp_lt_iff x y).mp hc)
        rw [List.filter_cons]
        simp [hk, hnil]
      · rw [List.filter_cons]
        simp [hk]
    · simp only [jsInsert, if_neg hc]
      rw [List.filter_cons, ih hys]
      by_cases hyk : dateKey y = k <;> by_cases hk : dateKey x = k <;>
        simp [List.filter_cons, hyk, hk]

theorem foldl_insert_filter (k : Nat) : ∀ (l acc : List PostRecord),
    List.Pairwise (fun a b => dateKey b ≤ dateKey a) acc →
    (l.foldl (fun acc x => jsInsert byDateDesc x acc) acc).filter
        (fun r => dateKey r = k) =
      acc.filter (fun r => dateKey r = k) ++ l.filter (fun r => dateKey r = k) := by
  intro l
  induction l with
  | nil => intro acc h; simp
  | cons x rest ih =>
    intro acc h
    simp only [List.foldl_cons]
    rw [ih _ (jsInsert_pairwise x acc h), jsInsert_filter x k acc h]
    by_cases hk : dateKey x = k <;> simp [List.filter_cons, hk]

theorem jsStableSort_filter (l : List PostRecord) (k : Nat) :
    (jsStableSort byDateDesc l).filter (fun r => dateKey r = k) =
      l.filter (fun r => dateKey r = k) := by
  simpa [jsStableSort] using foldl_insert_filter k l [] (by simp)

theorem mapDatabaseToPaths_of_slugs (l : List PostRecord)
    (h : ∀ p ∈ l, p.slug ≠ []) : mapDatabaseToPaths l = some (pathsOf l) := by
  induction l with
  | nil => rfl
  | cons p rest ih =>
    rcases hs : p.slug with _ | ⟨s, srest⟩
    · exact absurd hs (h p (List.mem_cons_self p rest))
    · have hrest := ih (fun q hq => h q (List.mem_cons_of_mem p hq))
      simp only [mapDatabaseToPaths] at hrest ⊢
      rw [List.mapM_cons]
      simp only [hs, hrest]
      simp [pathsOf, hs, List.headD]

/-! ## Example values used by the claims -/

/-- A paragraph block with no payload (the grouping pass never reads payloads). -/
def pBlock (i : String) : NBlock := .mk i "paragraph" none none

def bulletBlock (i : String) : NBlock := .mk i "bulleted_list_item" none none

def numberBlock (i : String) : NBlock := .mk i "numbered_list_item" none none

/-- The input sequence of the grouping example: `[p1, bullet1, bullet2, number1, p2]`. -/
def c1Input : List NBlock :=
  [pBlock "p1", bulletBlock "b1", bulletBlock "b2", numberBlock "n1", pBlock "p2"]

def simpleSpan : NSpan := ⟨some "hello", some "text", none, none, none⟩

/-- A record satisfying the five-field completeness invariant. -/
def validRecord : PostRecord :=
  ⟨some ⟨1700000000000⟩, [simpleSpan], [simpleSpan], [simpleSpan], ["author-1"], some true⟩

/-- A record missing its date (and everything else), failing validation. -/
def invalidRecord : PostRecord := ⟨none, [], [], [], [], none⟩

/-- An all-default annotation set. -/
def plainAnnots : NAnnotations :=
  ⟨some false, some false, some false, some false, some false, some "default"⟩

def annotatedSpan : NSpan := ⟨some "x", some "text", some plainAnnots, none, none⟩

deriving instance DecidableEq for Except

/-- A response error carrying a numeric 503 status field. -/
def e503 : NotionError := ⟨some "notionhq_client_response_error", some 503, none⟩

/-- A response error carrying a numeric 400 status field (not retryable). -/
def e400 : NotionError := ⟨some "notionhq_client_response_error", some 400, none⟩

/-- A response error indicating 503 only through its message text. -/
def eMsg503 : NotionError :=
  ⟨some "notionhq_client_response_error", none, some "Request failed with status: 503"⟩

/-! ## Claims -/

/-- C1 (counterexample): on the spec example `[p1, bullet1, bullet2, number1, p2]`
the code does NOT emit separate `ul`/`ol` groups — the claimed output is not
what `groupListBlocks` produces. -/
theorem groupListBlocks_kind_break_counterexample :
    groupListBlocks c1Input ≠
      [Sum.inl (pBlock "p1"),
       Sum.inr ⟨"b1", "ul", [bulletBlock "b1", bulletBlock "b2"]⟩,
       Sum.inr ⟨"n1", "ol", [numberBlock "n1"]⟩,
       Sum.inl (pBlock "p2")] := by
  have hact : groupListBlocks c1Input =
      [Sum.inl (pBlock "p1"),
       Sum.inr ⟨"b1", "ul", [bulletBlock "b1", bulletBlock "b2", numberBlock "n1"]⟩,
       Sum.inl (pBlock "p2")] := by rfl
  intro hEq
  have hlen : (3 : Nat) = 4 := by
    have h1 := congrArg List.length hact
    have h2 := congrArg List.length hEq
    simp at h1 h2
    omega
  exact absurd hlen (by decide)

/-- C1 (amended): `groupListBlocks` replaces each maximal consecutive run of
list-item blocks of either kind with exactly one `ListBlock` whose id and
kind come from the run's first member; a run breaks only at a non-list block,
so adjacent bulleted and numbered items are merged — on the example input the
output is `[p1, ListBlock{type:"ul", items:[bullet1, bullet2, number1]}, p2]`. -/
theorem groupListBlocks_merges_adjacent_runs :
    (∀ blocks : List NBlock, groupListBlocks blocks = groupRuns blocks) ∧
    groupListBlocks c1Input =
      [Sum.inl (pBlock "p1"),
       Sum.inr ⟨"b1", "ul", [bulletBlock "b1", bulletBlock "b2", numberBlock "n1"]⟩,
       Sum.inl (pBlock "p2")] :=
  ⟨fun blocks => (groupGo_eq_runs blocks).1, by rfl⟩

/-- C9: `groupListBlocks` loses and duplicates nothing: concatenating, in
output order, the plain blocks and the items of each `ListBlock` yields
exactly the input sequence. -/
theorem groupListBlocks_flatten_roundtrip (blocks : List NBlock) :
    flattenGrouped (groupListBlocks blocks) = blocks := by
  simpa [groupListBlocks, flattenGrouped] using groupGo_flatten blocks none

/-- C2: the block minimizer is idempotent — whenever `minimizeBlock` succeeds,
running it again on the result (children and rich-text spans included)
returns the same tree, so `minimize (minimize x) = minimize x` on every
valid input block tree. -/
theorem minimizeBlock_idempotent (b : NBlock) :
    (minimizeBlock b).bind minimizeBlock = minimizeBlock b := by
  rcases hb : minimizeBlock b with _ | y
  · rfl
  · simpa using minimizeBlock_idem b y hb

/-- C7: for every rich-text span, the minimizer keeps the plain text, keeps a
non-empty type tag, includes `annotations` only if some style flag is truthy
or the color is truthy and non-default (and drops it when all flags are false
with color "default"), keeps the `text` sub-object exactly when it has
non-empty content or a link (omitting `link` when absent), and keeps `href`
only if present. -/
theorem minimizeRichText_span_fields (s : NSpan) :
    (minimizeSpan s).plain_text = s.plain_text ∧
    (∀ t : String, s.type = some t → t ≠ "" → (minimizeSpan s).type = some t) ∧
    ((minimizeSpan s).annotations.isSome = true →
      ∃ a, s.annotations = some a ∧
        (truthyBool a.bold = true ∨ truthyBool a.italic = true ∨
          truthyBool a.strikethrough = true ∨ truthyBool a.underline = true ∨
          truthyBool a.code = true ∨
          (truthyStr a.color = true ∧ a.color ≠ some "default"))) ∧
    (∀ a, s.annotations = some a → a.bold = some false → a.italic = some false →
      a.strikethrough = some false → a.underline = some false → a.code = some false →
      a.color = some "default" → (minimizeSpan s).annotations = none) ∧
    ((minimizeSpan s).text.isSome = true ↔
      ∃ t, s.text = some t ∧ (truthyStr t.content = true ∨ t.link.isSome = true)) ∧
    (∀ t, s.text = some t → t.link = none →
      ∀ mt, (minimizeSpan s).text = some mt → mt.link = none) ∧
    ((minimizeSpan s).href.isSome = true → s.href.isSome = true) ∧
    minimizeRichText [s] = [minimizeSpan s] := by
  refine ⟨rfl, ?_, ?_, ?_, ?_, ?_, ?_, rfl⟩
  · intro t ht hne
    simp [minimizeSpan, ht, jsStrOr_of_ne_empty t "text" hne]
  · simp only [minimizeSpan]
    cases ha : s.annotations with
    | none => intro hcontra; simp at hcontra
    | some a =>
      by_cases hf : hasFormatting a = true
      · intro _
        refine ⟨a, rfl, ?_⟩
        simp only [hasFormatting, Bool.or_eq_true, Bool.and_eq_true,
          Bool.not_eq_true', decide_eq_false_iff_not] at hf
        tauto
      · intro hcontra
        simp [hf] at hcontra
  · intro a ha hb hi hst hu hcd hcol
    simp [minimizeSpan, ha, hasFormatting, truthyBool, truthyStr, hb, hi, hst, hu, hcd, hcol]
  · simp only [minimizeSpan]
    cases ht : s.text with
    | none =>
      constructor
      · intro hcontra; simp at hcontra
      · rintro ⟨t', ht', -⟩
        exact Option.noConfusion ht'
    | some t =>
      dsimp only
      by_cases hc : (truthyStr t.content || t.link.isSome) = true
      · rw [if_pos hc]
        simp only [Option.isSome_some, true_iff]
        exact ⟨t, rfl, (Bool.or_eq_true _ _).mp hc⟩
      · rw [if_neg hc]
        constructor
        · intro hcontra; simp at hcontra
        · rintro ⟨t', ht', hor⟩
          cases Option.some.inj ht'
          exact (hc ((Bool.or_eq_true _ _).mpr hor)).elim
  · intro t ht hlink mt hmt
    simp only [minimizeSpan, ht, hlink] at hmt
    by_cases hc : truthyStr t.content = true
    · rw [if_pos (by simp [hc])] at hmt
      rw [← Option.some.inj hmt]
      rfl
    · rw [if_neg (by simp [hc])] at hmt
      exact Option.noConfusion hmt
  · simp only [minimizeSpan]
    by_cases hh : truthyStr s.href = true
    · rw [if_pos hh]
      cases shref : s.href with
      | none => rw [shref] at hh; simp [truthyStr] at hh
      | some v => intro _; simp [shref]
    · rw [if_neg hh]
      intro hcontra
      simp at hcontra

/-- C7 witness: a span whose flags are all false with color "default" has no
annotations key in the output. -/
theorem minimizeRichText_span_fields_witness :
    (minimizeSpan annotatedSpan).annotations = none :=
  (minimizeRichText_span_fields annotatedSpan).2.2.2.1 plainAnnots rfl rfl rfl rfl rfl rfl rfl

/-- C3 (code bug): an error that indicates 503 only through its message is
classified NOT retryable — the regex capture is a string and the strict
`===` comparisons are against numbers — although the extraction itself finds
"503"; the concrete numeric-status scenarios of the claim do hold (503 twice
then success returns the value after exactly 3 invocations; a 400 is invoked
exactly once and propagates). -/
theorem isRetryable_message_status_bug :
    statusFallback eMsg503.message = JSVal.str "503" ∧
    isRetryableError eMsg503 = false ∧
    isRetryableError e503 = true ∧
    withRetryModel (fun i => if i < 2 then Except.error e503 else Except.ok 42) =
      (Except.ok 42, 3) ∧
    withRetryModel (fun _ => (Except.error e400 : Except NotionError Nat)) =
      (Except.error e400, 1) := by
  decide

/-- C4 (code bug): `getPostBySlug` caches `null` for an invalid match — the
map then holds an entry, distinct from "no cache entry" — but a second call
in development mode within the TTL cannot observe it: `getCached` returns the
stored `null`, the `cached !== null` guard treats it as a miss, and the
underlying fetch runs again. -/
theorem getPostBySlug_cached_null_ignored :
    (getPostBySlugM true 1000 [] "post-by-slug:db:intro" (some invalidRecord)).1 = none ∧
    (getPostBySlugM true 1000 [] "post-by-slug:db:intro" (some invalidRecord)).2.2 = true ∧
    mapGet (getPostBySlugM true 1000 [] "post-by-slug:db:intro" (some invalidRecord)).2.1
      "post-by-slug:db:intro" = some ⟨none, 1000⟩ ∧
    (getPostBySlugM true 1500
      (getPostBySlugM true 1000 [] "post-by-slug:db:intro" (some invalidRecord)).2.1
      "post-by-slug:db:intro" (some invalidRecord)).2.2 = true := by
  decide

/-- C5: the posts returned with `includeUnpublished = false` are a subset of
those returned with `includeUnpublished = true` on the same records, and every
returned post satisfies the five-field completeness invariant. -/
theorem getDatabase_subset_and_invariant (records : List PostRecord) :
    (∀ p, p ∈ getDatabaseM records false → p ∈ getDatabaseM records true) ∧
    (∀ (b : Bool) (p), p ∈ getDatabaseM records b →
      p.date.isSome = true ∧ p.description ≠ [] ∧ p.slug ≠ [] ∧ p.title ≠ [] ∧
        p.authors ≠ []) := by
  constructor
  · intro p hp
    rw [getDatabaseM, mem_jsStableSort, List.mem_filter] at hp ⊢
    refine ⟨hp.1, ?_⟩
    have h2 := hp.2
    simp only [postFilter, Bool.and_eq_true] at h2 ⊢
    tauto
  · intro b p hp
    rw [getDatabaseM, mem_jsStableSort, List.mem_filter] at hp
    have h2 := hp.2
    simp only [postFilter, Bool.and_eq_true, decide_eq_true_eq] at h2
    obtain ⟨⟨⟨⟨⟨hd, hdesc⟩, hslug⟩, htitle⟩, hauth⟩, -⟩ := h2
    exact ⟨hd, List.length_pos.mp hdesc, List.length_pos.mp hslug,
      List.length_pos.mp htitle, List.length_pos.mp hauth⟩

/-- C5 witness: a concrete valid published record is returned by both modes
and satisfies the invariant. -/
theorem getDatabase_subset_and_invariant_witness :
    validRecord ∈ getDatabaseM [validRecord] true ∧ validRecord.slug ≠ [] := by
  have hmem : validRecord ∈ getDatabaseM [validRecord] false := by decide
  exact ⟨(getDatabase_subset_and_invariant [validRecord]).1 validRecord hmem,
    ((getDatabase_subset_and_invariant [validRecord]).2 false validRecord hmem).2.2.1⟩

/-- C6: `getDatabase` output is sorted descending by publish date (adjacent
pairs satisfy `date(a) ≥ date(b)`), and records with equal dates keep their
relative order from the upstream filtered sequence (stability, expressed as
preservation of every equal-date subsequence). -/
theorem getDatabase_sorted_descending_stable (records : List PostRecord) (b : Bool) :
    List.Chain' (fun x y => dateKey y ≤ dateKey x) (getDatabaseM records b) ∧
    (∀ k, (getDatabaseM records b).filter (fun r => dateKey r = k) =
      (records.filter (postFilter b)).filter (fun r => dateKey r = k)) :=
  ⟨(jsStableSort_pairwise _).chain', fun k => jsStableSort_filter _ k⟩

/-- C8: outside development mode the cache is a no-op — every read returns
`null` and leaves the map unchanged, every write is discarded, and two
sequential read-through calls with the same key both run the underlying
fetch. -/
theorem cache_noop_outside_dev_mode (now t2 : Nat) (key : String) :
    (∀ (V : Type) (st : CacheMap V), getCachedM false now st key = (none, st)) ∧
    (∀ (V : Type) (st : CacheMap V) (v : V), setCacheM false now st key v = st) ∧
    (∀ (V : Type) (st : CacheMap V) (v1 v2 : V),
      (cachedFetch false now st key v1).2.2 = true ∧
      (cachedFetch false t2 (cachedFetch false now st key v1).2.1 key v2).2.2 = true) := by
  refine ⟨?_, ?_, ?_⟩ <;> intros <;> simp [getCachedM, setCacheM, cachedFetch]

/-- C10: `mapDatabaseToPaths` is safe on `getDatabase` output — the unguarded
access to the first slug span is defined on every returned post, and it
produces one params entry per post in the same order. -/
theorem mapDatabaseToPaths_safe_on_getDatabase (records : List PostRecord) (b : Bool) :
    mapDatabaseToPaths (getDatabaseM records b) =
      some (pathsOf (getDatabaseM records b)) ∧
    (pathsOf (getDatabaseM records b)).length = (getDatabaseM records b).length := by
  constructor
  · apply mapDatabaseToPaths_of_slugs
    intro p hp
    rw [getDatabaseM, mem_jsStableSort, List.mem_filter] at hp
    have h2 := hp.2
    simp only [postFilter, Bool.and_eq_true, decide_eq_true_eq] at h2
    exact List.length_pos.mp h2.1.1.1.2
  · simp [pathsOf]

end Blog
